import Mathlib

/-!
Shallow embedding of the connect_llm RAG chat platform core, translated from
the Go sources:

* `pkg/chat` conversation manager, RAG retriever, prompt builder, hub
  (conversation.go / rag.go / prompt.go / websocket.go / service.go)
* `pkg/processing` document processor (chunking, document ids)
* `pkg/ingestion` CSV parser and ingestion service

Modelling conventions:

* Go strings are modelled as `List Char` (`Str`); `len`, slicing and
  `strings.Contains` in Go are byte-level, which coincides with the
  character-level model on ASCII data and keeps all length arithmetic
  faithful (`len(s)/4` token estimates, `s[:n]` truncation, ...).
* Go `int` counters that are always non-negative in the modelled code are
  `Nat`; where Go computes a possibly-negative intermediate
  (`LastIndex` result, available-token budget) the comparison that guards
  it is translated explicitly.
* Go `float64` scores are modelled as `ℚ`; the score arithmetic proved
  about (`0.7 + nonneg boosts`, clamped at `1.0`) is monotone, so the
  bounds shown here hold for the floating-point program as well.
* External collaborators (document processor outcome, vector store `Store`)
  are injected as function parameters, mirroring the Go interfaces.
* Concurrency: per-batch worker merges are mutex-guarded additive updates
  in Go, so aggregate statistics are order-independent and are modelled by
  sequential folds; the hub control loop processes one event at a time and
  is modelled as a step function on the registry state.
-/

/-- Go string modelled as a list of characters (bytes for ASCII data). -/
abbrev Str := List Char


/-- estimateTokens (conversation.go / rag.go): simple estimation,
about 4 characters per token: `len(text) / 4`. -/
def estimateTokens (text : Str) : Nat := text.length / 4

/-- Boolean test that `pre` is a prefix of `s` (used to translate Go
`strings.Contains`). -/
def strStartsWith : Str → Str → Bool
  | [], _ => true
  | _ :: _, [] => false
  | a :: as, b :: bs => a == b && strStartsWith as bs

/-- Go `strings.Contains(haystack, needle)`: substring occurrence test. -/
def containsStr : Str → Str → Bool
  | [], needle => strStartsWith needle []
  | h :: t, needle => strStartsWith needle (h :: t) || containsStr t needle

/-- Go `strings.ToLower`. -/
def toLowerStr (s : Str) : Str := s.map Char.toLower

/-- Helper for `fields`: accumulates the current word (reversed). -/
def fieldsAux : Str → Str → List Str
  | [], acc => if acc.isEmpty then [] else [acc.reverse]
  | c :: rest, acc =>
    if c.isWhitespace then
      if acc.isEmpty then fieldsAux rest [] else acc.reverse :: fieldsAux rest []
    else fieldsAux rest (c :: acc)

/-- Go `strings.Fields`: splits around runs of whitespace. -/
def fields (s : Str) : List Str := fieldsAux s []

/-- Go `strings.Join(words, " ")`. -/
def joinSpace : List Str → Str
  | [] => []
  | [w] => w
  | w :: ws => w ++ ' ' :: joinSpace ws

/-! ## Conversation manager (pkg/chat conversation manager source) -/

/-- Role of a message sender (`Role` in the Go source). -/
inductive Role where
  | system
  | user
  | assistant
deriving DecidableEq, Repr

/-- ConversationMessage: a single message in a conversation.  The fields
not used by any modelled operation (timestamp, metadata, citations) are
omitted. -/
structure ConversationMessage where
  id : Str
  role : Role
  content : Str
  tokens : Nat
deriving DecidableEq, Repr

/-- Conversation: a chat conversation with history (timestamps and
metadata omitted). -/
structure Conversation where
  id : Str
  clientID : Str
  messages : List ConversationMessage
  totalTokens : Nat
  maxContextTokens : Nat
deriving DecidableEq, Repr

/-- ConversationConfig (fields used by the modelled operations). -/
structure ConversationConfig where
  maxContextTokens : Nat
  maxMessages : Nat
  systemPrompt : Str
deriving DecidableEq, Repr

/-- Total of the `tokens` fields of a message list. -/
def sumTokens (ms : List ConversationMessage) : Nat := (ms.map (·.tokens)).sum

/-- Eviction loop of `manageContextWindow`:
`for conv.TotalTokens > conv.MaxContextTokens && startIdx < len(conv.Messages)-1`.
`ms` is the evictable suffix (everything after a preserved leading system
message); the loop never removes the final message. -/
def evictOldest (total maxTok : Nat) : List ConversationMessage → Nat × List ConversationMessage
  | [] => (total, [])
  | [m] => (total, [m])
  | m :: m2 :: rest =>
    if maxTok < total then evictOldest (total - m.tokens) maxTok (m2 :: rest)
    else (total, m :: m2 :: rest)

/-- First phase of `manageContextWindow`: when the total exceeds the
budget, evict oldest messages after a preserved leading system message,
keeping the running total in step with the removals. -/
def evictPhase (conv : Conversation) : Conversation :=
  if conv.maxContextTokens < conv.totalTokens then
    match conv.messages with
    | [] => conv
    | head :: tail =>
      if head.role = Role.system then
        let p := evictOldest conv.totalTokens conv.maxContextTokens tail
        { conv with totalTokens := p.1, messages := head :: p.2 }
      else
        let p := evictOldest conv.totalTokens conv.maxContextTokens (head :: tail)
        { conv with totalTokens := p.1, messages := p.2 }
  else conv

/-- Second phase of `manageContextWindow`: when more than `MaxMessages`
messages remain, keep the last `MaxMessages` (preserving a leading system
message) and recompute the total from the survivors. -/
def trimPhase (cfg : ConversationConfig) (conv : Conversation) : Conversation :=
  if cfg.maxMessages < conv.messages.length then
    let startIdx := conv.messages.length - cfg.maxMessages
    let newMessages :=
      match conv.messages with
      | [] => []
      | head :: tail =>
        if head.role = Role.system then head :: (head :: tail).drop (startIdx + 1)
        else (head :: tail).drop startIdx
    { conv with messages := newMessages, totalTokens := sumTokens newMessages }
  else conv

/-- manageContextWindow: evicts oldest non-system messages while the token
total exceeds the budget (never evicting the newest message), then trims to
`MaxMessages` keeping a leading system message, recomputing the total. -/
def manageContextWindow (cfg : ConversationConfig) (conv : Conversation) : Conversation :=
  trimPhase cfg (evictPhase conv)

/-- AddMessage body after the conversation lookup: estimates tokens when
absent, appends, updates the running total, then manages the context
window (`compressOldMessages` is an empty placeholder in the source). -/
def addMessage (cfg : ConversationConfig) (conv : Conversation) (msg : ConversationMessage) : Conversation :=
  let msg' := if msg.tokens = 0 then { msg with tokens := estimateTokens msg.content } else msg
  manageContextWindow cfg
    { conv with
      messages := conv.messages ++ [msg'],
      totalTokens := conv.totalTokens + msg'.tokens }

/-- CreateConversation: fresh conversation (generated ids injected as
`genId`, `genMsgId` in place of `uuid.New()`), optionally seeded with the
configured system prompt whose tokens count toward the total. -/
def createConversation (cfg : ConversationConfig) (clientID genId genMsgId : Str) : Conversation :=
  let base : Conversation :=
    { id := genId, clientID := clientID, messages := [],
      totalTokens := 0, maxContextTokens := cfg.maxContextTokens }
  if cfg.systemPrompt.isEmpty then base
  else
    let sysMsg : ConversationMessage :=
      { id := genMsgId, role := Role.system, content := cfg.systemPrompt,
        tokens := estimateTokens cfg.systemPrompt }
    { base with messages := [sysMsg], totalTokens := sysMsg.tokens }

/-- ConversationManager: conversation table plus configuration. -/
structure ConversationManager where
  conversations : List (Str × Conversation)
  config : ConversationConfig

/-- GetConversation: table lookup by id (`none` models the not-found
error). -/
def getConversation (m : ConversationManager) (conversationID : Str) : Option Conversation :=
  (m.conversations.find? (fun p => p.1 == conversationID)).map (·.2)

/-- CreateConversation at the manager level: builds the conversation and
stores it in the table under its generated id. -/
def createConversationM (m : ConversationManager) (clientID genId genMsgId : Str) :
    Conversation × ConversationManager :=
  let conv := createConversation m.config clientID genId genMsgId
  (conv, { m with conversations := (conv.id, conv) :: m.conversations })

/-- GetOrCreateConversation: returns the existing conversation when the id
is non-empty and present, otherwise silently creates a new one for the
client. -/
def getOrCreateConversation (m : ConversationManager) (conversationID clientID genId genMsgId : Str) :
    Conversation × ConversationManager :=
  if conversationID.isEmpty then createConversationM m clientID genId genMsgId
  else
    match getConversation m conversationID with
    | some conv => (conv, m)
    | none => createConversationM m clientID genId genMsgId

/-- Greedy newest-to-oldest inclusion loop of `GetContextMessages`:
`ms` is the candidate history newest-first; a message is included while
`tokenCount + msg.Tokens` stays within `avail`, and the walk stops at the
first overflow (`break`). -/
def takeBudget (avail : Nat) : Nat → List ConversationMessage → List ConversationMessage
  | _, [] => []
  | tokenCount, m :: rest =>
    if avail < tokenCount + m.tokens then []
    else m :: takeBudget avail (tokenCount + m.tokens) rest

/-- GetContextMessages body after the conversation lookup: errors when no
token budget remains, unconditionally includes a leading system message
(its tokens seeding the running count), then walks the remaining history
newest-to-oldest prepending each message that fits in front of the
already-collected list. -/
def getContextMessages (conv : Conversation) (additionalTokens : Nat) :
    Except String (List ConversationMessage) :=
  if conv.maxContextTokens ≤ additionalTokens then
    Except.error ("no token budget available for context")
  else
    let avail := conv.maxContextTokens - additionalTokens
    match conv.messages with
    | [] => Except.ok []
    | head :: tail =>
      if head.role = Role.system then
        Except.ok ((takeBudget avail head.tokens tail.reverse).reverse ++ [head])
      else
        Except.ok ((takeBudget avail 0 ((head :: tail).reverse)).reverse)

/-! ## RAG retriever (pkg/chat RAG source) -/

/-- Document stored in the vector database (`vector.Document` with the
metadata fields used by the modelled operations inlined; embedding vector
and remaining metadata omitted). -/
structure Document where
  id : Str
  content : Str
  source : Str
  title : Str
  author : Str
deriving DecidableEq, Repr

/-- RetrievalResult: a retrieved document with relevance information. -/
structure RetrievalResult where
  document : Document
  score : ℚ
  relevance : Str
  tokenCount : Nat
deriving DecidableEq, Repr

/-- RAGContext: the context built from retrieved documents.  The Go
metadata map entries `total_retrieved`, `included_documents` and
`truncated` are modelled as dedicated fields. -/
structure RAGContext where
  query : Str
  documents : List RetrievalResult
  totalTokens : Nat
  totalRetrieved : Nat
  includedDocuments : Nat
  truncated : Bool
deriving DecidableEq, Repr

/-- Query terms of `calculateRelevance`: `strings.Fields` of the
lowercased query. -/
def queryTermsOf (query : Str) : List Str := fields (toLowerStr query)

/-- Count of query terms occurring in the lowercased content. -/
def matchCountOf (doc : Document) (query : Str) : Nat :=
  (queryTermsOf query).countP (fun term => containsStr (toLowerStr doc.content) term)

/-- Term-overlap boost `matchCount / len(queryTerms) * 0.3` (in `ℚ` the
Go division by zero for a query without terms yields 0). -/
def termBoostOf (doc : Document) (query : Str) : ℚ :=
  (matchCountOf doc query : ℚ) / ((queryTermsOf query).length : ℚ) * (3/10)

/-- Metadata boost: 0.1 when the author is set and appears in the
lowercased query. -/
def metadataBoostOf (doc : Document) (query : Str) : ℚ :=
  if !doc.author.isEmpty && containsStr (toLowerStr query) (toLowerStr doc.author) then 1/10
  else 0

/-- calculateRelevance: base score 0.7, plus the term-overlap and
metadata boosts, clamped above at 1.0.  Go `float64` arithmetic is
modelled in `ℚ`. -/
def calculateRelevance (doc : Document) (query : Str) : ℚ :=
  if 1 < 7/10 + termBoostOf doc query + metadataBoostOf doc query then 1
  else 7/10 + termBoostOf doc query + metadataBoostOf doc query

/-- Per-candidate step of `processResults`: discard below `MinScore`,
otherwise build the result with its relevance tier and token estimate. -/
def scoreResult (minScore : ℚ) (query : Str) (doc : Document) : Option RetrievalResult :=
  if calculateRelevance doc query < minScore then none
  else
    some { document := doc
           score := calculateRelevance doc query
           relevance :=
             if 8/10 < calculateRelevance doc query then "high".data
             else if 13/20 < calculateRelevance doc query then "medium".data
             else "low".data
           tokenCount := estimateTokens doc.content }

/-- processResults: scores each candidate, discards those below
`MinScore`, and sorts by score descending (Go `sort.Slice` guarantees
only the ordering; the stable merge sort is one compliant order). -/
def processResults (minScore : ℚ) (documents : List Document) (query : Str) : List RetrievalResult :=
  (documents.filterMap (scoreResult minScore query)).mergeSort (fun a b => b.score ≤ a.score)

/-- Go `strings.LastIndex(s, ".")`: index of the last period, -1 when
absent. -/
def lastIndexOfDot (s : Str) : Int :=
  match s.reverse.findIdx? (fun c => c == '.') with
  | some p => (s.length : Int) - 1 - p
  | none => -1

/-- truncateDocument: cuts the content to `maxTokens * 4` characters,
retreats to the last sentence boundary when it lies past the halfway
point, and appends the literal marker. -/
def truncateDocument (content : Str) (maxTokens : Nat) : Str :=
  if content.length ≤ maxTokens * 4 then content
  else
    (if (maxTokens * 4 / 2 : Int) < lastIndexOfDot (content.take (maxTokens * 4)) then
      (content.take (maxTokens * 4)).take
        ((lastIndexOfDot (content.take (maxTokens * 4)) + 1).toNat)
    else content.take (maxTokens * 4)) ++ " [truncated]".data

/-- The truncated replacement result built in `buildContext`'s overflow
branch: content truncated to the remaining budget, token count
re-estimated. -/
def truncRes (remaining : Nat) (r : RetrievalResult) : RetrievalResult :=
  let t := truncateDocument r.document.content remaining
  { r with document := { r.document with content := t }, tokenCount := estimateTokens t }

/-- Packing loop of `buildContext`: accumulates whole documents while they
fit; at the first overflow the document is truncated and included when
more than 100 tokens of budget remain, otherwise omitted; either way the
loop stops (`break`). -/
def packDocs (maxTokens : Nat) : Nat → List RetrievalResult → List RetrievalResult × Nat
  | total, [] => ([], total)
  | total, r :: rest =>
    if maxTokens < total + r.tokenCount then
      let remainingTokens := maxTokens - total
      if 100 < remainingTokens then
        let r' := truncRes remainingTokens r
        ([r'], total + r'.tokenCount)
      else ([], total)
    else
      let p := packDocs maxTokens (total + r.tokenCount) rest
      (r :: p.1, p.2)

/-- buildContext: packs ranked results into the token budget and records
the diagnostics (total retrieved, included count, truncated flag, with
the flag set exactly when fewer documents were included than retrieved). -/
def buildContext (maxTokens : Nat) (query : Str) (results : List RetrievalResult) : RAGContext :=
  let p := packDocs maxTokens 0 results
  { query := query
    documents := p.1
    totalTokens := p.2
    totalRetrieved := results.length
    includedDocuments := p.1.length
    truncated := decide (p.1.length < results.length) }

/-! ## Prompt builder citations (pkg/chat prompt source) -/

/-- Citation (metadata map entries inlined as fields). -/
structure Citation where
  documentID : Str
  content : Str
  score : ℚ
  title : Str
  author : Str
  source : Str
deriving DecidableEq, Repr

/-- The literal reference text `[Document i+1]` searched for by
`ExtractCitationsFromResponse` (`fmt.Sprintf` with the 1-based index). -/
def docRef (i : Nat) : Str := "[Document ".data ++ (Nat.repr (i + 1)).data ++ "]".data

/-- The Citation built for a referenced retrieval result. -/
def mkCitation (r : RetrievalResult) : Citation :=
  { documentID := r.document.id
    content := r.document.content
    score := r.score
    title := r.document.title
    author := r.document.author
    source := r.document.source }

/-- Loop of `ExtractCitationsFromResponse` over the retrieved documents
with their 0-based position `i`. -/
def extractCitationsAux (response : Str) : Nat → List RetrievalResult → List Citation
  | _, [] => []
  | i, r :: rest =>
    if containsStr response (docRef i) then
      mkCitation r :: extractCitationsAux response (i + 1) rest
    else extractCitationsAux response (i + 1) rest

/-- ExtractCitationsFromResponse: one membership test per retrieved
document, in document order. -/
def extractCitationsFromResponse (response : Str) (docs : List RetrievalResult) : List Citation :=
  extractCitationsAux response 0 docs

/-! ## Document processor (pkg/processing source): chunking and ids -/

/-- Chunking loop of `chunkText`: emits the `chunkSize`-word window at the
current position, advances by `step = chunkSize - chunkOverlap`, and stops
once the advance passes the end (`if i >= len(words) break`).  The `fuel`
argument bounds the iteration count; `chunkText` supplies
`words.length`, which suffices whenever `step ≥ 1` (the Go loop does not
terminate when `overlap ≥ chunkSize`). -/
def chunkLoop (chunkSize step : Nat) : Nat → List Str → List Str
  | _, [] => []
  | 0, _ :: _ => []
  | fuel + 1, w :: rest =>
    let chunk := joinSpace ((w :: rest).take chunkSize)
    if step < (w :: rest).length then
      chunk :: chunkLoop chunkSize step fuel ((w :: rest).drop step)
    else [chunk]

/-- chunkText: one chunk when the text is empty or its length is at most
`chunkSize` (a byte-length guard in the Go source, not a word count);
otherwise word-windows of `chunkSize` words advancing by
`chunkSize - chunkOverlap`. -/
def chunkText (chunkSize chunkOverlap : Nat) (text : Str) : List Str :=
  if text.isEmpty || text.length ≤ chunkSize then [text]
  else
    let words := fields text
    chunkLoop chunkSize (chunkSize - chunkOverlap) words.length words

/-- Digit table shared by the decimal (`%d`) and lowercase hex (`%x`)
renderings of `fmt.Sprintf`. -/
def digitChar (d : Nat) : Char := "0123456789abcdef".data.getD d '0'

/-- Decimal rendering of a natural number (Go `fmt.Sprintf` with `%d`). -/
def decimalStr (n : Nat) : Str :=
  if n = 0 then ['0'] else ((Nat.digits 10 n).map digitChar).reverse

/-- The string hashed by `generateDocumentID`:
`fmt.Sprintf` of the message id, a dash and the decimal chunk index. -/
def hashInput (messageID : Str) (chunkIndex : Nat) : Str :=
  messageID ++ '-' :: decimalStr chunkIndex

/-! SHA-256 (Go `crypto/sha256`, modelled per FIPS 180-4 on byte lists;
32-bit words are `Nat` reduced modulo `2^32`). -/

/-- Addition modulo `2^32`. -/
def wadd (a b : Nat) : Nat := (a + b) % 4294967296

/-- Right rotation of a 32-bit word. -/
def rotr32 (n x : Nat) : Nat := (x / 2 ^ n + x % 2 ^ n * 2 ^ (32 - n)) % 4294967296

/-- SHA-256 Ch function (bitwise complement within 32 bits). -/
def shaCh (x y z : Nat) : Nat := (x &&& y) ^^^ ((x ^^^ 4294967295) &&& z)

/-- SHA-256 Maj function. -/
def shaMaj (x y z : Nat) : Nat := (x &&& y) ^^^ (x &&& z) ^^^ (y &&& z)

/-- SHA-256 big sigma 0. -/
def bsig0 (x : Nat) : Nat := rotr32 2 x ^^^ rotr32 13 x ^^^ rotr32 22 x

/-- SHA-256 big sigma 1. -/
def bsig1 (x : Nat) : Nat := rotr32 6 x ^^^ rotr32 11 x ^^^ rotr32 25 x

/-- SHA-256 small sigma 0. -/
def ssig0 (x : Nat) : Nat := rotr32 7 x ^^^ rotr32 18 x ^^^ x / 2 ^ 3

/-- SHA-256 small sigma 1. -/
def ssig1 (x : Nat) : Nat := rotr32 17 x ^^^ rotr32 19 x ^^^ x / 2 ^ 10

/-- SHA-256 round constants (FIPS 180-4 section 4.2.2, decimal). -/
def shaK : List Nat :=
  [1116352408, 1899447441, 3049323471, 3921009573,
   961987163, 1508970993, 2453635748, 2870763221,
   3624381080, 310598401, 607225278, 1426881987,
   1925078388, 2162078206, 2614888103, 3248222580,
   3835390401, 4022224774, 264347078, 604807628,
   770255983, 1249150122, 1555081692, 1996064986,
   2554220882, 2821834349, 2952996808, 3210313671,
   3336571891, 3584528711, 113926993, 338241895,
   666307205, 773529912, 1294757372, 1396182291,
   1695183700, 1986661051, 2177026350, 2456956037,
   2730485921, 2820302411, 3259730800, 3345764771,
   3516065817, 3600352804, 4094571909, 275423344,
   430227734, 506948616, 659060556, 883997877,
   958139571, 1322822218, 1537002063, 1747873779,
   1955562222, 2024104815, 2227730452, 2361852424,
   2428436474, 2756734187, 3204031479, 3329325298]

/-- SHA-256 working state. -/
structure SHAState where
  a : Nat
  b : Nat
  c : Nat
  d : Nat
  e : Nat
  f : Nat
  g : Nat
  h : Nat
deriving DecidableEq, Repr

/-- SHA-256 initial hash value. -/
def shaInit : SHAState :=
  { a := 1779033703, b := 3144134277, c := 1013904242, d := 2773480762,
    e := 1359893119, f := 2600822924, g := 528734635, h := 1541459225 }

/-- Big-endian 8-byte rendering of the bit length. -/
def be64 (n : Nat) : List Nat :=
  [n / 2 ^ 56 % 256, n / 2 ^ 48 % 256, n / 2 ^ 40 % 256, n / 2 ^ 32 % 256,
   n / 2 ^ 24 % 256, n / 2 ^ 16 % 256, n / 2 ^ 8 % 256, n % 256]

/-- SHA-256 message padding: a 0x80 byte, zeros to 56 mod 64, then the
64-bit message bit length. -/
def sha256pad (msg : List Nat) : List Nat :=
  let padZeros := (119 - msg.length % 64) % 64
  msg ++ 128 :: (List.replicate padZeros 0 ++ be64 (msg.length * 8))

/-- Big-endian assembly of bytes into 32-bit words. -/
def bytesToWords : List Nat → List Nat
  | b0 :: b1 :: b2 :: b3 :: rest =>
    (((b0 * 256 + b1) * 256 + b2) * 256 + b3) :: bytesToWords rest
  | _ => []

/-- Message-schedule extension from 16 to 64 words (`fuel` counts the
remaining words to append; `compressBlock` passes 48). -/
def extendSchedule (w : List Nat) : Nat → List Nat
  | 0 => w
  | fuel + 1 =>
    let t := w.length
    let wt := wadd (wadd (ssig1 (w.getD (t - 2) 0)) (w.getD (t - 7) 0))
                   (wadd (ssig0 (w.getD (t - 15) 0)) (w.getD (t - 16) 0))
    extendSchedule (w ++ [wt]) fuel

/-- One SHA-256 compression round. -/
def shaRound (st : SHAState) (wk : Nat × Nat) : SHAState :=
  let t1 := wadd (wadd (wadd st.h (bsig1 st.e)) (wadd (shaCh st.e st.f st.g) wk.2)) wk.1
  let t2 := wadd (bsig0 st.a) (shaMaj st.a st.b st.c)
  { a := wadd t1 t2, b := st.a, c := st.b, d := st.c,
    e := wadd st.d t1, f := st.e, g := st.f, h := st.g }

/-- SHA-256 block compression. -/
def compressBlock (hv : SHAState) (block : List Nat) : SHAState :=
  let w := extendSchedule (bytesToWords block) 48
  let stf := (w.zip shaK).foldl shaRound hv
  { a := wadd hv.a stf.a, b := wadd hv.b stf.b, c := wadd hv.c stf.c, d := wadd hv.d stf.d,
    e := wadd hv.e stf.e, f := wadd hv.f stf.f, g := wadd hv.g stf.g, h := wadd hv.h stf.h }

/-- Split the padded message into 64-byte blocks. -/
def splitBlocks : List Nat → List (List Nat)
  | [] => []
  | b :: rest => ((b :: rest).take 64) :: splitBlocks ((b :: rest).drop 64)
termination_by l => l.length
decreasing_by simp [List.length_drop]; omega

/-- Big-endian bytes of a 32-bit word. -/
def wordBytes (w : Nat) : List Nat :=
  [w / 2 ^ 24 % 256, w / 2 ^ 16 % 256, w / 2 ^ 8 % 256, w % 256]

/-- Digest serialization: the eight hash words, big-endian. -/
def digestBytes (st : SHAState) : List Nat :=
  [st.a, st.b, st.c, st.d, st.e, st.f, st.g, st.h].flatMap wordBytes

/-- SHA-256 of a byte list. -/
def sha256 (msg : List Nat) : List Nat :=
  digestBytes ((splitBlocks (sha256pad msg)).foldl compressBlock shaInit)

/-- Go `[]byte(s)` on the string model (identical to UTF-8 for ASCII
data). -/
def charBytes (s : Str) : List Nat := s.map Char.toNat

/-- Lowercase two-digit hex rendering of one byte (`%x` on a byte). -/
def byteToHex (b : Nat) : Str := [digitChar (b / 16 % 16), digitChar (b % 16)]

/-- generateDocumentID: lowercase hex of the first 8 bytes of the SHA-256
digest of `messageID-chunkIndex`.  The Go parameter is a (finite, 64-bit)
non-negative `int` loop index; it is carried here as `Nat`, and nothing
is concluded from values outside the program's `int` range. -/
def generateDocumentID (messageID : Str) (chunkIndex : Nat) : Str :=
  (((sha256 (charBytes (hashInput messageID chunkIndex))).take 8).map byteToHex).flatten

/-! ## Ingestion service (pkg/ingestion source) -/

/-- SlackMessage (the fields consulted by `processBatch`; the remaining
record fields do not influence the modelled statistics). -/
structure SlackMessage where
  messageID : Str
  content : Str
  fileIDs : List Str
deriving DecidableEq, Repr

/-- IngestionStats counters (the error list is modelled by its length). -/
structure IngestionStats where
  totalMessages : Nat
  processedMessages : Nat
  skippedMessages : Nat
  failedMessages : Nat
  totalDocuments : Nat
  storedDocuments : Nat
  failedDocuments : Nat
  errorCount : Nat
deriving DecidableEq, Repr

/-- The all-zero statistics record a run starts from. -/
def emptyStats : IngestionStats :=
  { totalMessages := 0, processedMessages := 0, skippedMessages := 0, failedMessages := 0,
    totalDocuments := 0, storedDocuments := 0, failedDocuments := 0, errorCount := 0 }

/-- UpdateStats: mutex-guarded additive merge.  Note that `TotalMessages`
is not among the merged fields. -/
def updateStats (s : IngestionStats) (processed skipped failed documents storedDocs failedDocs : Nat) :
    IngestionStats :=
  { s with
    processedMessages := s.processedMessages + processed
    skippedMessages := s.skippedMessages + skipped
    failedMessages := s.failedMessages + failed
    totalDocuments := s.totalDocuments + documents
    storedDocuments := s.storedDocuments + storedDocs
    failedDocuments := s.failedDocuments + failedDocs }

/-- Per-message loop of `processBatch`, carrying the local
processed/skipped/failed counters.  The document processor and the vector
store (external collaborators) are injected as `process` and `store`. -/
def processLoop (skipEmptyContent : Bool) (process : SlackMessage → Except Unit (List Document))
    (store : Document → Bool) (stats : IngestionStats) (p s f : Nat) :
    List SlackMessage → IngestionStats × Nat × Nat × Nat
  | [] => (stats, p, s, f)
  | msg :: rest =>
    if skipEmptyContent && msg.content.isEmpty && msg.fileIDs.isEmpty then
      processLoop skipEmptyContent process store stats p (s + 1) f rest
    else
      match process msg with
      | Except.error _ =>
        processLoop skipEmptyContent process store
          { stats with errorCount := stats.errorCount + 1 } p s (f + 1) rest
      | Except.ok docs =>
        let storedCount := docs.countP store
        let stats' := updateStats
          { stats with errorCount := stats.errorCount + (docs.length - storedCount) }
          0 0 0 docs.length storedCount (docs.length - storedCount)
        processLoop skipEmptyContent process store stats' (p + 1) s f rest

/-- processBatch: runs the per-message loop, then merges the local
counters into the shared statistics with one `UpdateStats` call. -/
def processBatch (skipEmptyContent : Bool) (process : SlackMessage → Except Unit (List Document))
    (store : Document → Bool) (stats : IngestionStats) (messages : List SlackMessage) :
    IngestionStats :=
  let r := processLoop skipEmptyContent process store stats 0 0 0 messages
  updateStats r.1 r.2.1 r.2.2.1 r.2.2.2 0 0 0

/-- IngestFile: the parser (SkipErrors on, as configured by `NewService`)
delivers the parsed-and-validated records (`some`) to the worker batches
and counts every read record in its running total; failed records
(`none`) are recorded in the parser's own error list only.  Worker
batches partition the delivered messages and the statistics merges are
additive, so the batched concurrent run aggregates to one fold.  The
final progress callback stores the parser's record total in
`TotalMessages`. -/
def ingestFile (skipEmptyContent : Bool) (process : SlackMessage → Except Unit (List Document))
    (store : Document → Bool) (records : List (Option SlackMessage)) : IngestionStats :=
  let stats1 := processBatch skipEmptyContent process store emptyStats (records.filterMap id)
  { stats1 with totalMessages := records.length }

/-- IngestDirectory: per file, a failed parse adds one error and the file
is skipped; otherwise the file's statistics are merged with `UpdateStats`
(which never merges `TotalMessages`). -/
def ingestDirectory (skipEmptyContent : Bool) (process : SlackMessage → Except Unit (List Document))
    (store : Document → Bool) (files : List (Except Unit (List (Option SlackMessage)))) :
    IngestionStats :=
  files.foldl (fun acc file =>
    match file with
    | Except.error _ => { acc with errorCount := acc.errorCount + 1 }
    | Except.ok records =>
      let fs := ingestFile skipEmptyContent process store records
      updateStats acc fs.processedMessages fs.skippedMessages fs.failedMessages
        fs.totalDocuments fs.storedDocuments fs.failedDocuments) emptyStats

/-! ## Realtime hub (pkg/chat websocket source) -/

/-- Wire message (the envelope fields are irrelevant to the modelled
queue behaviour). -/
structure WireMessage where
  content : Str
deriving DecidableEq, Repr

/-- A registered client: id plus the pending contents of its buffered
outbound channel (capacity is a parameter of the step functions; 256 in
`ServeWS`). -/
structure HubClient where
  id : Str
  send : List WireMessage
deriving DecidableEq, Repr

/-- One `broadcast` step of `Hub.Run`: a non-blocking send to every
client; a client whose queue is full is closed and deleted from the
registry (the `default` branch of the `select`). -/
def broadcastStep (capacity : Nat) (clients : List HubClient) (message : WireMessage) :
    List HubClient :=
  clients.filterMap fun c =>
    if c.send.length < capacity then some { c with send := c.send ++ [message] }
    else none

/-- Hub.SendMessage: a non-blocking send to one client; on a missing
client or a full queue it returns an error (`false`) and the registry is
left unchanged — the client is not disconnected. -/
def sendMessage (capacity : Nat) (clients : List HubClient) (clientID : Str)
    (message : WireMessage) : List HubClient × Bool :=
  match clients.find? (fun c => c.id == clientID) with
  | none => (clients, false)
  | some c =>
    if c.send.length < capacity then
      (clients.map (fun c' =>
        if c'.id == clientID then { c' with send := c'.send ++ [message] } else c'), true)
    else (clients, false)

/-- Total of the `tokenCount` fields of a result list (the running
accumulator of `buildContext` over whole included documents). -/
def sumTokenCounts (rs : List RetrievalResult) : Nat := (rs.map (·.tokenCount)).sum

/-! ## Helper lemmas -/

@[simp]
theorem sumTokens_nil : sumTokens [] = 0 := rfl

@[simp]
theorem sumTokens_cons (m : ConversationMessage) (ms : List ConversationMessage) :
    sumTokens (m :: ms) = m.tokens + sumTokens ms := by
  simp [sumTokens]

theorem sumTokens_append (l1 l2 : List ConversationMessage) :
    sumTokens (l1 ++ l2) = sumTokens l1 + sumTokens l2 := by
  simp [sumTokens]

theorem sumTokens_drop_le (k : Nat) (ms : List ConversationMessage) :
    sumTokens (ms.drop k) ≤ sumTokens ms := by
  induction ms generalizing k with
  | nil => simp
  | cons m tail ih =>
    cases k with
    | zero => simp
    | succ k' => simpa using le_trans (ih k') (by simp)

theorem evictOldest_spec (maxTok : Nat) (ms : List ConversationMessage) :
    ∀ extra : Nat,
      (∃ k, (evictOldest (extra + sumTokens ms) maxTok ms).2 = ms.drop k) ∧
      (evictOldest (extra + sumTokens ms) maxTok ms).1 =
        extra + sumTokens (evictOldest (extra + sumTokens ms) maxTok ms).2 ∧
      ((evictOldest (extra + sumTokens ms) maxTok ms).1 ≤ maxTok ∨
        (evictOldest (extra + sumTokens ms) maxTok ms).2.length ≤ 1) := by
  induction ms with
  | nil =>
    intro extra
    exact ⟨⟨0, rfl⟩, by simp [evictOldest], Or.inr (by simp [evictOldest])⟩
  | cons m tail ih =>
    intro extra
    cases tail with
    | nil =>
      exact ⟨⟨0, rfl⟩, by simp [evictOldest], Or.inr (by simp [evictOldest])⟩
    | cons m2 rest =>
      by_cases h : maxTok < extra + sumTokens (m :: m2 :: rest)
      · have harith : extra + sumTokens (m :: m2 :: rest) - m.tokens =
            extra + m.tokens + sumTokens (m2 :: rest) - m.tokens := by
          simp; omega
        have hstep : evictOldest (extra + sumTokens (m :: m2 :: rest)) maxTok (m :: m2 :: rest) =
            evictOldest (extra + sumTokens (m2 :: rest)) maxTok (m2 :: rest) := by
          rw [evictOldest, if_pos h]
          congr 1
          simp
          omega
        rw [hstep]
        obtain ⟨⟨k, hk⟩, hinv, hdisj⟩ := ih extra
        exact ⟨⟨k + 1, by simpa using hk⟩, hinv, hdisj⟩
      · have hstep : evictOldest (extra + sumTokens (m :: m2 :: rest)) maxTok (m :: m2 :: rest) =
            (extra + sumTokens (m :: m2 :: rest), m :: m2 :: rest) := by
          rw [evictOldest, if_neg h]
        rw [hstep]
        exact ⟨⟨0, rfl⟩, rfl, Or.inl (le_of_not_lt h)⟩

theorem evictPhase_spec (conv : Conversation)
    (hinv : conv.totalTokens = sumTokens conv.messages) :
    (evictPhase conv).totalTokens = sumTokens (evictPhase conv).messages ∧
    (evictPhase conv).maxContextTokens = conv.maxContextTokens ∧
    ((evictPhase conv).totalTokens ≤ conv.maxContextTokens ∨
      (evictPhase conv).messages.length ≤ 2) := by
  by_cases h : conv.maxContextTokens < conv.totalTokens
  · cases hm : conv.messages with
    | nil =>
      have : conv.totalTokens = 0 := by rw [hinv, hm]; rfl
      omega
    | cons head tail =>
      by_cases hr : head.role = Role.system
      · have hentry : conv.totalTokens = head.tokens + sumTokens tail := by
          rw [hinv, hm]; simp
        have hspec := evictOldest_spec conv.maxContextTokens tail head.tokens
        obtain ⟨⟨k, hk⟩, hrun, hdisj⟩ := hspec
        have hres : evictPhase conv =
            { conv with
              totalTokens := (evictOldest conv.totalTokens conv.maxContextTokens tail).1,
              messages :=
                head :: (evictOldest conv.totalTokens conv.maxContextTokens tail).2 } := by
          rw [evictPhase, if_pos h, hm]
          simp [hr]
        rw [hres]
        refine ⟨?_, rfl, ?_⟩
        · simp only [hentry]
          rw [hrun]
          simp
        · rcases hdisj with hle | hlen
          · exact Or.inl (by simpa [hentry] using hle)
          · exact Or.inr (by simp only [hentry]; simpa using hlen)
      · have hentry : conv.totalTokens = 0 + sumTokens (head :: tail) := by
          rw [hinv, hm]; omega
        have hspec := evictOldest_spec conv.maxContextTokens (head :: tail) 0
        obtain ⟨⟨k, hk⟩, hrun, hdisj⟩ := hspec
        have hres : evictPhase conv =
            { conv with
              totalTokens :=
                (evictOldest conv.totalTokens conv.maxContextTokens (head :: tail)).1,
              messages :=
                (evictOldest conv.totalTokens conv.maxContextTokens (head :: tail)).2 } := by
          rw [evictPhase, if_pos h, hm]
          simp [hr]
        rw [hres]
        refine ⟨?_, rfl, ?_⟩
        · simp only [hentry]
          rw [hrun]
          simp
        · rcases hdisj with hle | hlen
          · exact Or.inl (by simpa [hentry] using hle)
          · exact Or.inr (by simp only [hentry]; omega)
  · rw [evictPhase, if_neg h]
    exact ⟨hinv, rfl, Or.inl (le_of_not_lt h)⟩

theorem trimPhase_spec (cfg : ConversationConfig) (conv : Conversation)
    (hinv : conv.totalTokens = sumTokens conv.messages) :
    (trimPhase cfg conv).totalTokens = sumTokens (trimPhase cfg conv).messages ∧
    (trimPhase cfg conv).maxContextTokens = conv.maxContextTokens ∧
    (trimPhase cfg conv).totalTokens ≤ conv.totalTokens ∧
    (cfg.maxMessages < conv.messages.length →
      (trimPhase cfg conv).messages.length ≤ cfg.maxMessages + 1) ∧
    (¬ cfg.maxMessages < conv.messages.length → trimPhase cfg conv = conv) := by
  obtain ⟨cid, ccl, cmsgs, ctot, cmax⟩ := conv
  simp only at hinv ⊢
  by_cases h : cfg.maxMessages < cmsgs.length
  · cases cmsgs with
    | nil => simp at h
    | cons head tail =>
      by_cases hr : head.role = Role.system
      · have hres : trimPhase cfg ⟨cid, ccl, head :: tail, ctot, cmax⟩ =
            ⟨cid, ccl, head :: tail.drop ((head :: tail).length - cfg.maxMessages),
             sumTokens (head :: tail.drop ((head :: tail).length - cfg.maxMessages)), cmax⟩ := by
          simp only [trimPhase]
          rw [if_pos h]
          simp [hr, List.drop_succ_cons]
        rw [hres]
        refine ⟨rfl, rfl, ?_, ?_, fun hc => absurd h hc⟩
        · rw [hinv]
          simp only [sumTokens_cons]
          exact Nat.add_le_add_left (sumTokens_drop_le _ _) _
        · intro _
          simp only [List.length_cons, List.length_drop] at h ⊢
          omega
      · have hres : trimPhase cfg ⟨cid, ccl, head :: tail, ctot, cmax⟩ =
            ⟨cid, ccl, (head :: tail).drop ((head :: tail).length - cfg.maxMessages),
             sumTokens ((head :: tail).drop ((head :: tail).length - cfg.maxMessages)), cmax⟩ := by
          simp only [trimPhase]
          rw [if_pos h]
          simp [hr]
        rw [hres]
        refine ⟨rfl, rfl, ?_, ?_, fun hc => absurd h hc⟩
        · rw [hinv]
          exact sumTokens_drop_le _ _
        · intro _
          simp only [List.length_cons, List.length_drop] at h ⊢
          omega
  · have hres : trimPhase cfg ⟨cid, ccl, cmsgs, ctot, cmax⟩ = ⟨cid, ccl, cmsgs, ctot, cmax⟩ := by
      simp only [trimPhase]
      rw [if_neg h]
    rw [hres]
    exact ⟨hinv, rfl, le_refl _, fun hc => absurd hc h, fun _ => rfl⟩

theorem manageContextWindow_spec (cfg : ConversationConfig) (conv : Conversation)
    (hinv : conv.totalTokens = sumTokens conv.messages) :
    (manageContextWindow cfg conv).totalTokens =
      sumTokens (manageContextWindow cfg conv).messages ∧
    (manageContextWindow cfg conv).maxContextTokens = conv.maxContextTokens ∧
    ((manageContextWindow cfg conv).totalTokens ≤ conv.maxContextTokens ∨
      (manageContextWindow cfg conv).messages.length ≤ 2) := by
  obtain ⟨h1inv, h1max, h1disj⟩ := evictPhase_spec conv hinv
  obtain ⟨h2inv, h2max, h2le, h2len, h2id⟩ := trimPhase_spec cfg (evictPhase conv) h1inv
  rw [manageContextWindow]
  refine ⟨h2inv, by rw [h2max, h1max], ?_⟩
  by_cases htrim : cfg.maxMessages < (evictPhase conv).messages.length
  · rcases h1disj with hle | hlen
    · exact Or.inl (le_trans h2le hle)
    · have hm2 : cfg.maxMessages + 1 ≤ 2 := by omega
      exact Or.inr (le_trans (h2len htrim) hm2)
  · rw [h2id htrim]
    exact h1disj

/-! ## C1: AddMessage token budget -/

/-- C1 counterexample: a single message whose token count (11) exceeds
`maxContextTokens` (10) is never evicted — the eviction loop keeps the
newest message (`startIdx < len(messages)-1`) — so after `AddMessage`
returns, the conversation's running token total exceeds the budget,
contradicting the claim that the total never exceeds `maxContextTokens`
even for a single oversized message. -/
theorem addMessage_single_oversized_message_exceeds_budget :
    (addMessage ⟨10, 100, []⟩
        (createConversation ⟨10, 100, []⟩ [] [] [])
        ⟨[], Role.user, [], 11⟩).maxContextTokens <
      (addMessage ⟨10, 100, []⟩
        (createConversation ⟨10, 100, []⟩ [] [] [])
        ⟨[], Role.user, [], 11⟩).totalTokens := by
  decide

/-- C1 (amended): after any `AddMessage` on a conversation whose running
total equals the sum of its messages' token counts (the invariant
`AddMessage` itself maintains), the running total again equals the sum of
the surviving messages, and it is within `maxContextTokens` unless
eviction has reduced the history to at most two messages (the preserved
leading system message and/or the never-evicted newest message), whose
token counts alone may exceed the budget. -/
theorem addMessage_token_budget (cfg : ConversationConfig) (conv : Conversation)
    (msg : ConversationMessage)
    (hinv : conv.totalTokens = sumTokens conv.messages) :
    (addMessage cfg conv msg).totalTokens = sumTokens (addMessage cfg conv msg).messages ∧
    ((addMessage cfg conv msg).totalTokens ≤ conv.maxContextTokens ∨
      (addMessage cfg conv msg).messages.length ≤ 2) := by
  rw [addMessage]
  have hinv' :
      (conv.totalTokens +
          (if msg.tokens = 0 then { msg with tokens := estimateTokens msg.content } else msg).tokens) =
        sumTokens (conv.messages ++
          [if msg.tokens = 0 then { msg with tokens := estimateTokens msg.content } else msg]) := by
    rw [sumTokens_append, hinv]
    simp
  obtain ⟨h1, h2, h3⟩ := manageContextWindow_spec cfg
    { conv with
      messages := conv.messages ++
        [if msg.tokens = 0 then { msg with tokens := estimateTokens msg.content } else msg],
      totalTokens := conv.totalTokens +
        (if msg.tokens = 0 then { msg with tokens := estimateTokens msg.content } else msg).tokens }
    hinv'
  exact ⟨h1, h3⟩

/-- C1 witness: the amended theorem applied to a concrete conversation
holding one 4-token message under a 10-token budget, adding a 3-token
message. -/
theorem addMessage_token_budget_witness :
    (addMessage ⟨10, 100, []⟩ ⟨[], [], [⟨[], Role.user, [], 4⟩], 4, 10⟩
        ⟨[], Role.user, [], 3⟩).totalTokens =
      sumTokens (addMessage ⟨10, 100, []⟩ ⟨[], [], [⟨[], Role.user, [], 4⟩], 4, 10⟩
        ⟨[], Role.user, [], 3⟩).messages ∧
    ((addMessage ⟨10, 100, []⟩ ⟨[], [], [⟨[], Role.user, [], 4⟩], 4, 10⟩
        ⟨[], Role.user, [], 3⟩).totalTokens ≤
        (⟨[], [], [⟨[], Role.user, [], 4⟩], 4, 10⟩ : Conversation).maxContextTokens ∨
      (addMessage ⟨10, 100, []⟩ ⟨[], [], [⟨[], Role.user, [], 4⟩], 4, 10⟩
        ⟨[], Role.user, [], 3⟩).messages.length ≤ 2) :=
  addMessage_token_budget ⟨10, 100, []⟩ ⟨[], [], [⟨[], Role.user, [], 4⟩], 4, 10⟩
    ⟨[], Role.user, [], 3⟩ (by decide)

/-! ## C2: GetContextMessages -/

theorem sumTokens_reverse (l : List ConversationMessage) :
    sumTokens l.reverse = sumTokens l := by
  simp [sumTokens, List.sum_reverse]

theorem takeBudget_spec (avail : Nat) (ws : List ConversationMessage) :
    ∀ tc : Nat, ∃ k, takeBudget avail tc ws = ws.take k ∧ k ≤ ws.length ∧
      (tc + sumTokens (ws.take k) ≤ avail ∨ k = 0) := by
  induction ws with
  | nil =>
    intro tc
    exact ⟨0, rfl, by simp, Or.inr rfl⟩
  | cons m rest ih =>
    intro tc
    by_cases h : avail < tc + m.tokens
    · refine ⟨0, ?_, by simp, Or.inr rfl⟩
      rw [takeBudget, if_pos h]
      simp
    · obtain ⟨k, hk, hkle, hbud⟩ := ih (tc + m.tokens)
      refine ⟨k + 1, ?_, by simpa using hkle, ?_⟩
      · rw [takeBudget, if_neg h, hk]
        rfl
      · rcases hbud with hle | hzero
        · exact Or.inl (by simpa [Nat.add_assoc] using hle)
        · subst hzero
          exact Or.inl (by simpa using le_of_not_lt h)

/-- C2 counterexample: on a conversation whose history is a leading
system message followed by one user message, both fitting comfortably in
the budget, `GetContextMessages` returns the user message first and the
system message last — the included messages are prepended in front of the
already-inserted system message — so the leading system message is not
the first element and the returned order is not chronological. -/
theorem getContextMessages_system_message_last :
    getContextMessages
        ⟨[], [], [⟨['s'], Role.system, [], 5⟩, ⟨['u'], Role.user, [], 5⟩], 10, 100⟩ 0 =
      Except.ok [⟨['u'], Role.user, [], 5⟩, ⟨['s'], Role.system, [], 5⟩] ∧
    (⟨['u'], Role.user, [], 5⟩ : ConversationMessage) ≠ ⟨['s'], Role.system, [], 5⟩ ∧
    (⟨['s'], Role.system, [], 5⟩ : ConversationMessage).role = Role.system :=
  ⟨rfl, by decide, rfl⟩

/-- C2 (amended): `GetContextMessages` fails exactly when `reservedTokens`
is at least `maxContextTokens`.  Otherwise it returns: on an empty
history, the empty list; with a leading system message, a chronologically
ordered suffix of the remaining history followed by the system message at
the END of the list (not the front), within budget unless nothing but the
system message fits (the system message is included without any budget
check); without a system message, a chronologically ordered suffix of the
history whose token total is within `maxContextTokens - reservedTokens`.
Selection walks newest-to-oldest and stops at the first overflow. -/
theorem getContextMessages_spec (conv : Conversation) (reserved : Nat) :
    (conv.maxContextTokens ≤ reserved →
      getContextMessages conv reserved =
        Except.error ("no token budget available for context")) ∧
    (reserved < conv.maxContextTokens →
      ∃ msgs, getContextMessages conv reserved = Except.ok msgs ∧
        ((conv.messages = [] ∧ msgs = []) ∨
         (∃ head tail k, conv.messages = head :: tail ∧ head.role = Role.system ∧
            msgs = tail.drop k ++ [head] ∧
            (sumTokens msgs ≤ conv.maxContextTokens - reserved ∨ msgs = [head])) ∨
         (∃ head tail k, conv.messages = head :: tail ∧ ¬ head.role = Role.system ∧
            msgs = (head :: tail).drop k ∧
            sumTokens msgs ≤ conv.maxContextTokens - reserved))) := by
  obtain ⟨cid, ccl, cmsgs, ctot, cmax⟩ := conv
  simp only
  constructor
  · intro h
    rw [getContextMessages, if_pos h]
  · intro h
    rw [getContextMessages, if_neg (not_le.mpr h)]
    cases cmsgs with
    | nil => exact ⟨[], rfl, Or.inl ⟨rfl, rfl⟩⟩
    | cons head tail =>
      by_cases hr : head.role = Role.system
      · simp only [hr, if_pos rfl]
        obtain ⟨k, hk, hkle, hbud⟩ := takeBudget_spec (cmax - reserved) tail.reverse head.tokens
        have hshape : (takeBudget (cmax - reserved) head.tokens tail.reverse).reverse =
            tail.drop (tail.length - k) := by
          rw [hk, List.take_reverse, List.reverse_reverse]
        refine ⟨_, rfl, Or.inr (Or.inl ⟨head, tail, tail.length - k, rfl, hr, ?_, ?_⟩)⟩
        · rw [hshape]
        · rcases hbud with hle | hzero
          · refine Or.inl ?_
            rw [hshape] at *
            rw [sumTokens_append]
            have hsum : sumTokens (List.take k tail.reverse) =
                sumTokens (tail.drop (tail.length - k)) := by
              rw [List.take_reverse, sumTokens_reverse]
            simp only [sumTokens_cons, sumTokens_nil] at *
            omega
          · subst hzero
            refine Or.inr ?_
            rw [hshape]
            simp
      · simp only [hr, if_neg hr]
        obtain ⟨k, hk, hkle, hbud⟩ := takeBudget_spec (cmax - reserved) (head :: tail).reverse 0
        have hshape : (takeBudget (cmax - reserved) 0 (head :: tail).reverse).reverse =
            (head :: tail).drop ((head :: tail).length - k) := by
          rw [hk, List.take_reverse, List.reverse_reverse]
        refine ⟨_, rfl, Or.inr (Or.inr ⟨head, tail, (head :: tail).length - k, rfl, hr, ?_, ?_⟩)⟩
        · rw [hshape]
        · have hsum : sumTokens (List.take k (head :: tail).reverse) =
              sumTokens ((head :: tail).drop ((head :: tail).length - k)) := by
            rw [List.take_reverse, sumTokens_reverse]
          rcases hbud with hle | hzero
          · rw [hshape]
            omega
          · subst hzero
            rw [hshape]
            simp [List.drop_length]

/-- C2 witness: the amended theorem applied at a concrete over-reserved
call (error branch) and at a concrete two-message conversation with a
leading system message (success branch). -/
theorem getContextMessages_spec_witness :
    (getContextMessages ⟨[], [], [], 0, 5⟩ 7 =
      Except.error ("no token budget available for context")) ∧
    (∃ msgs,
      getContextMessages
          ⟨[], [], [⟨['s'], Role.system, [], 2⟩, ⟨['u'], Role.user, [], 3⟩], 5, 100⟩ 0 =
        Except.ok msgs ∧
      (((⟨[], [], [⟨['s'], Role.system, [], 2⟩, ⟨['u'], Role.user, [], 3⟩], 5, 100⟩ :
            Conversation).messages = [] ∧ msgs = []) ∨
       (∃ head tail k,
          (⟨[], [], [⟨['s'], Role.system, [], 2⟩, ⟨['u'], Role.user, [], 3⟩], 5, 100⟩ :
            Conversation).messages = head :: tail ∧ head.role = Role.system ∧
          msgs = tail.drop k ++ [head] ∧
          (sumTokens msgs ≤
              (⟨[], [], [⟨['s'], Role.system, [], 2⟩, ⟨['u'], Role.user, [], 3⟩], 5, 100⟩ :
                Conversation).maxContextTokens - 0 ∨ msgs = [head])) ∨
       (∃ head tail k,
          (⟨[], [], [⟨['s'], Role.system, [], 2⟩, ⟨['u'], Role.user, [], 3⟩], 5, 100⟩ :
            Conversation).messages = head :: tail ∧ ¬ head.role = Role.system ∧
          msgs = (head :: tail).drop k ∧
          sumTokens msgs ≤
            (⟨[], [], [⟨['s'], Role.system, [], 2⟩, ⟨['u'], Role.user, [], 3⟩], 5, 100⟩ :
              Conversation).maxContextTokens - 0))) :=
  ⟨(getContextMessages_spec ⟨[], [], [], 0, 5⟩ 7).1 (by decide),
   (getContextMessages_spec
      ⟨[], [], [⟨['s'], Role.system, [], 2⟩, ⟨['u'], Role.user, [], 3⟩], 5, 100⟩ 0).2
      (by decide)⟩

/-! ## C3: RAG token-budget packing -/

theorem estimateTokens_truncateDocument_le (content : Str) (mt : Nat) :
    estimateTokens (truncateDocument content mt) ≤ mt + 3 := by
  have h12 : (" [truncated]".data).length = 12 := by decide
  rw [truncateDocument]
  split
  · rename_i h
    rw [estimateTokens]
    omega
  · rename_i h
    split
    · rw [estimateTokens]
      simp only [List.length_append, List.length_take, h12]
      omega
    · rw [estimateTokens]
      simp only [List.length_append, List.length_take, h12]
      omega

@[simp]
theorem sumTokenCounts_nil : sumTokenCounts [] = 0 := rfl

@[simp]
theorem sumTokenCounts_cons (r : RetrievalResult) (rs : List RetrievalResult) :
    sumTokenCounts (r :: rs) = r.tokenCount + sumTokenCounts rs := by
  simp [sumTokenCounts]

theorem truncRes_tokenCount (remaining : Nat) (r : RetrievalResult) :
    (truncRes remaining r).tokenCount =
      estimateTokens (truncateDocument r.document.content remaining) := rfl

theorem packDocs_spec (maxTokens : Nat) (results : List RetrievalResult) :
    ∀ total : Nat, total ≤ maxTokens →
      (packDocs maxTokens total results).2 ≤ maxTokens + 3 ∧
      ∃ k, k ≤ results.length ∧
        ((packDocs maxTokens total results).1 = results.take k ∨
         ∃ r, results[k]? = some r ∧
           (packDocs maxTokens total results).1 =
             results.take k ++
               [truncRes (maxTokens - (total + sumTokenCounts (results.take k))) r]) := by
  induction results with
  | nil =>
    intro total htot
    exact ⟨by simpa [packDocs] using htot.trans (by omega), 0, by simp, Or.inl rfl⟩
  | cons r rest ih =>
    intro total htot
    by_cases hov : maxTokens < total + r.tokenCount
    · by_cases hrem : 100 < maxTokens - total
      · have hres : packDocs maxTokens total (r :: rest) =
            ([truncRes (maxTokens - total) r],
              total + (truncRes (maxTokens - total) r).tokenCount) := by
          rw [packDocs, if_pos hov, if_pos hrem]
        rw [hres]
        constructor
        · have := estimateTokens_truncateDocument_le r.document.content (maxTokens - total)
          rw [truncRes_tokenCount]
          omega
        · exact ⟨0, by simp, Or.inr ⟨r, by simp, by simp⟩⟩
      · have hres : packDocs maxTokens total (r :: rest) = ([], total) := by
          rw [packDocs, if_pos hov, if_neg hrem]
        rw [hres]
        exact ⟨by omega, 0, by simp, Or.inl rfl⟩
    · have hfit : total + r.tokenCount ≤ maxTokens := le_of_not_lt hov
      have hres : packDocs maxTokens total (r :: rest) =
          (r :: (packDocs maxTokens (total + r.tokenCount) rest).1,
            (packDocs maxTokens (total + r.tokenCount) rest).2) := by
        rw [packDocs, if_neg hov]
      rw [hres]
      obtain ⟨hbound, k, hkle, hshape⟩ := ih (total + r.tokenCount) hfit
      refine ⟨hbound, k + 1, by simpa using hkle, ?_⟩
      rcases hshape with hl | ⟨r2, hr2, hr2eq⟩
      · exact Or.inl (by rw [List.take_succ_cons, hl])
      · refine Or.inr ⟨r2, by simpa using hr2, ?_⟩
        rw [List.take_succ_cons, hr2eq]
        simp only [List.cons_append, sumTokenCounts_cons]
        rw [Nat.add_assoc]

set_option maxRecDepth 100000 in
/-- C3 counterexample: a single candidate of 408 characters with no
sentence boundary (estimated 102 tokens) against `MaxTokens = 101`: the
remaining budget 101 exceeds the minimum-usefulness threshold, the
document is truncated to 404 characters and the appended " [truncated]"
marker brings the stored token count to 104, so the context total
exceeds `MaxTokens`; moreover the `truncated` diagnostic stays `false`
because it is computed as included < retrieved (1 < 1), even though a
document was truncated. -/
theorem buildContext_exceeds_maxTokens :
    101 <
      (buildContext 101 []
        [⟨⟨[], List.replicate 408 'a', [], [], []⟩, 1, [], 102⟩]).totalTokens ∧
    (buildContext 101 []
        [⟨⟨[], List.replicate 408 'a', [], [], []⟩, 1, [], 102⟩]).truncated = false ∧
    (buildContext 101 []
        [⟨⟨[], List.replicate 408 'a', [], [], []⟩, 1, [], 102⟩]).documents.length = 1 := by
  decide

/-- C3 (amended): token-budget packing keeps the context total within
`MaxTokens + 3` — the literal " [truncated]" marker appended to a
truncated document adds up to 3 estimated tokens beyond the remaining
budget, and `MaxTokens` itself is respected whenever no document is
truncated (the prefix case); every candidate is included whole (a prefix
of the ranked list), or the first overflowing candidate is included
truncated to the remaining budget and packing stops, or candidates are
excluded from the first overflow on; the `truncated` diagnostic is set
exactly when fewer documents are included than retrieved — not when the
final included document was truncated. -/
theorem buildContext_packing_spec (maxTokens : Nat) (query : Str)
    (results : List RetrievalResult) :
    (buildContext maxTokens query results).totalTokens ≤ maxTokens + 3 ∧
    ((buildContext maxTokens query results).truncated = true ↔
      (buildContext maxTokens query results).documents.length < results.length) ∧
    ∃ k, k ≤ results.length ∧
      ((buildContext maxTokens query results).documents = results.take k ∨
       ∃ r, results[k]? = some r ∧
         (buildContext maxTokens query results).documents =
           results.take k ++ [truncRes (maxTokens - sumTokenCounts (results.take k)) r]) := by
  obtain ⟨hbound, k, hkle, hshape⟩ := packDocs_spec maxTokens results 0 (Nat.zero_le _)
  refine ⟨hbound, by simp [buildContext], ?_⟩
  refine ⟨k, hkle, ?_⟩
  rcases hshape with hl | ⟨r2, hr2, hr2eq⟩
  · exact Or.inl hl
  · exact Or.inr ⟨r2, hr2, by simpa using hr2eq⟩

/-! ## C4: chunk counts -/

theorem chunkLoop_length (c s : Nat) (hs : 0 < s) :
    ∀ (fuel : Nat) (ws : List Str), ws ≠ [] → ws.length ≤ fuel →
      (chunkLoop c s fuel ws).length = (ws.length + s - 1) / s := by
  intro fuel
  induction fuel with
  | zero =>
    intro ws hne hle
    exact absurd (List.eq_nil_of_length_eq_zero (Nat.le_zero.mp hle)) hne
  | succ fuel ih =>
    intro ws hne hle
    cases ws with
    | nil => exact absurd rfl hne
    | cons w rest =>
      by_cases h : s < (w :: rest).length
      · have hlen : ((w :: rest).drop s).length = (w :: rest).length - s := by
          simp [List.length_drop]
        have hne' : (w :: rest).drop s ≠ [] := by
          apply List.ne_nil_of_length_pos
          omega
        have hle' : ((w :: rest).drop s).length ≤ fuel := by
          rw [hlen]
          simp only [List.length_cons] at hle h ⊢
          omega
        have hres : chunkLoop c s (fuel + 1) (w :: rest) =
            joinSpace ((w :: rest).take c) :: chunkLoop c s fuel ((w :: rest).drop s) := by
          rw [chunkLoop, if_pos h]
        rw [hres, List.length_cons, ih _ hne' hle', hlen]
        have e1 : (w :: rest).length - s + s - 1 = (w :: rest).length - 1 := by
          simp only [List.length_cons] at h ⊢
          omega
        have e2 : (w :: rest).length + s - 1 = ((w :: rest).length - 1) + s := by
          simp only [List.length_cons]
          omega
        rw [e1, e2, Nat.add_div_right _ hs]
      · have hres : chunkLoop c s (fuel + 1) (w :: rest) = [joinSpace ((w :: rest).take c)] := by
          rw [chunkLoop, if_neg h]
        rw [hres, List.length_singleton]
        refine (Nat.div_eq_of_lt_le ?_ ?_).symm
        · simp only [List.length_cons, Nat.one_mul] at h ⊢
          omega
        · simp only [List.length_cons] at h ⊢
          omega

set_option maxRecDepth 100000 in
/-- C4 counterexample: 30 words with `chunkSize = 10`, `overlap = 5`
(byte length 149 > 10, so the word loop runs): the code produces 6
chunks — one per window start 0,5,10,15,20,25 — while the claim's
formula `ceil((L-o)/(c-o)) = ceil(25/5)` predicts 5; the repository's own
test (`Long text with overlap`) also expects 6. -/
theorem chunkText_formula_counterexample :
    (chunkText 10 5 (joinSpace (List.replicate 30 ("word".data)))).length = 6 ∧
    (fields (joinSpace (List.replicate 30 ("word".data)))).length = 30 ∧
    (chunkText 10 5 (joinSpace (List.replicate 30 ("word".data)))).length ≠ 5 := by
  decide

/-- C4 (amended): for `overlap < chunkSize`, chunking returns exactly one
chunk when the text is empty or its BYTE length (not word count) is at
most `chunkSize`; otherwise, writing `L` for the number of
whitespace-separated words (`L ≥ 1`) and `s = chunkSize - overlap`, it
returns exactly `ceil(L/s) = (L + s - 1) / s` chunks (not
`ceil((L-o)/(c-o))`: the loop emits a chunk at every window start
`0, s, 2s, ...` below `L`). -/
theorem chunkText_chunk_count (chunkSize chunkOverlap : Nat) (text : Str)
    (ho : chunkOverlap < chunkSize) :
    ((text = [] ∨ text.length ≤ chunkSize) →
      (chunkText chunkSize chunkOverlap text).length = 1) ∧
    (¬ (text = [] ∨ text.length ≤ chunkSize) → fields text ≠ [] →
      (chunkText chunkSize chunkOverlap text).length =
        ((fields text).length + (chunkSize - chunkOverlap) - 1) /
          (chunkSize - chunkOverlap)) := by
  constructor
  · intro hc
    have hcond : (text.isEmpty || decide (text.length ≤ chunkSize)) = true := by
      rcases hc with hc | hc
      · simp [hc]
      · simp [hc]
    rw [chunkText, if_pos hcond]
    rfl
  · intro hc hf
    have hcond : (text.isEmpty || decide (text.length ≤ chunkSize)) = false := by
      push_neg at hc
      simp [List.isEmpty_iff, hc.1, hc.2]
    rw [chunkText, if_neg (by rw [hcond]; exact Bool.false_ne_true)]
    exact chunkLoop_length chunkSize (chunkSize - chunkOverlap) (by omega) _ _ hf (le_refl _)

/-- C4 witness: the amended theorem applied to the repository's own test
inputs — a 20-character text under `chunkSize = 100` (one chunk) and 20
words under `chunkSize = 10`, `overlap = 2` (`ceil(20/8) = 3` chunks). -/
theorem chunkText_chunk_count_witness :
    (chunkText 100 10 ("This is a short text".data)).length = 1 ∧
    (chunkText 10 2 (joinSpace (List.replicate 20 ("word".data)))).length =
      ((fields (joinSpace (List.replicate 20 ("word".data)))).length + (10 - 2) - 1) /
        (10 - 2) :=
  ⟨(chunkText_chunk_count 100 10 ("This is a short text".data) (by decide)).1 (by decide),
   (chunkText_chunk_count 10 2 (joinSpace (List.replicate 20 ("word".data)))
      (by decide)).2 (by decide) (by decide)⟩

/-! ## C5: ingestion statistics -/

theorem length_filterMap_all_some {α β : Type} (f : α → Option β) (l : List α)
    (h : ∀ a ∈ l, (f a).isSome) : (l.filterMap f).length = l.length := by
  induction l with
  | nil => rfl
  | cons a rest ih =>
    have ha := h a (by simp)
    cases hfa : f a with
    | none => rw [hfa] at ha; simp at ha
    | some b =>
      rw [List.filterMap_cons, hfa]
      simp only [List.length_cons]
      rw [ih (fun x hx => h x (by simp [hx]))]

theorem processLoop_buckets (skipEmpty : Bool)
    (process : SlackMessage → Except Unit (List Document)) (store : Document → Bool) :
    ∀ (msgs : List SlackMessage) (stats : IngestionStats) (p s f : Nat),
      (processLoop skipEmpty process store stats p s f msgs).2.1 +
          (processLoop skipEmpty process store stats p s f msgs).2.2.1 +
          (processLoop skipEmpty process store stats p s f msgs).2.2.2 =
        p + s + f + msgs.length ∧
      (processLoop skipEmpty process store stats p s f msgs).1.processedMessages =
        stats.processedMessages ∧
      (processLoop skipEmpty process store stats p s f msgs).1.skippedMessages =
        stats.skippedMessages ∧
      (processLoop skipEmpty process store stats p s f msgs).1.failedMessages =
        stats.failedMessages ∧
      (processLoop skipEmpty process store stats p s f msgs).1.totalMessages =
        stats.totalMessages := by
  intro msgs
  induction msgs with
  | nil =>
    intro stats p s f
    exact ⟨by simp [processLoop], rfl, rfl, rfl, rfl⟩
  | cons msg rest ih =>
    intro stats p s f
    by_cases hskip : (skipEmpty && msg.content.isEmpty && msg.fileIDs.isEmpty) = true
    · have hres : processLoop skipEmpty process store stats p s f (msg :: rest) =
          processLoop skipEmpty process store stats p (s + 1) f rest := by
        rw [processLoop, if_pos hskip]
      rw [hres]
      obtain ⟨h1, h2, h3, h4, h5⟩ := ih stats p (s + 1) f
      exact ⟨by rw [h1]; simp; omega, h2, h3, h4, h5⟩
    · cases hpr : process msg with
      | error e =>
        have hres : processLoop skipEmpty process store stats p s f (msg :: rest) =
            processLoop skipEmpty process store
              { stats with errorCount := stats.errorCount + 1 } p s (f + 1) rest := by
          rw [processLoop, if_neg hskip, hpr]
        rw [hres]
        obtain ⟨h1, h2, h3, h4, h5⟩ := ih
          { stats with errorCount := stats.errorCount + 1 } p s (f + 1)
        exact ⟨by rw [h1]; simp; omega, h2, h3, h4, h5⟩
      | ok docs =>
        have hres : processLoop skipEmpty process store stats p s f (msg :: rest) =
            processLoop skipEmpty process store
              (updateStats
                { stats with errorCount := stats.errorCount + (docs.length - docs.countP store) }
                0 0 0 docs.length (docs.countP store) (docs.length - docs.countP store))
              (p + 1) s f rest := by
          rw [processLoop, if_neg hskip, hpr]
        rw [hres]
        obtain ⟨h1, h2, h3, h4, h5⟩ := ih
          (updateStats
            { stats with errorCount := stats.errorCount + (docs.length - docs.countP store) }
            0 0 0 docs.length (docs.countP store) (docs.length - docs.countP store))
          (p + 1) s f
        refine ⟨by rw [h1]; simp; omega, ?_, ?_, ?_, ?_⟩
        · rw [h2]; simp [updateStats]
        · rw [h3]; simp [updateStats]
        · rw [h4]; simp [updateStats]
        · rw [h5]; simp [updateStats]

/-- C5 counterexample: a directory run over one file containing one valid
non-empty message: the message is processed (`processed = 1`), but
`IngestDirectory` merges file statistics through `UpdateStats`, which
does not carry `TotalMessages`, so the aggregate reports
`totalMessages = 0` and `processed + skipped + failed ≠ totalMessages`. -/
theorem ingestDirectory_drops_totalMessages :
    (ingestDirectory true (fun _ => Except.ok []) (fun _ => true)
          [Except.ok [some ⟨['m'], ['h'], []⟩]]).processedMessages +
        (ingestDirectory true (fun _ => Except.ok []) (fun _ => true)
          [Except.ok [some ⟨['m'], ['h'], []⟩]]).skippedMessages +
        (ingestDirectory true (fun _ => Except.ok []) (fun _ => true)
          [Except.ok [some ⟨['m'], ['h'], []⟩]]).failedMessages = 1 ∧
    (ingestDirectory true (fun _ => Except.ok []) (fun _ => true)
        [Except.ok [some ⟨['m'], ['h'], []⟩]]).totalMessages = 0 := by
  decide

/-- C5 (amended): in a completed single-file run every delivered
(parsed-and-validated) message lands in exactly one of
processed/skipped/failed, so their sum equals the number of delivered
messages; this equals `totalMessages` exactly when every record of the
file parses and validates (the parser's total counts unparseable records
that reach no bucket).  Directory aggregation (see the counterexample)
never accumulates `totalMessages`. -/
theorem ingestion_bucket_partition (skipEmpty : Bool)
    (process : SlackMessage → Except Unit (List Document)) (store : Document → Bool)
    (records : List (Option SlackMessage)) :
    (ingestFile skipEmpty process store records).processedMessages +
        (ingestFile skipEmpty process store records).skippedMessages +
        (ingestFile skipEmpty process store records).failedMessages =
      (records.filterMap id).length ∧
    ((∀ r ∈ records, r.isSome) →
      (ingestFile skipEmpty process store records).processedMessages +
          (ingestFile skipEmpty process store records).skippedMessages +
          (ingestFile skipEmpty process store records).failedMessages =
        (ingestFile skipEmpty process store records).totalMessages) := by
  obtain ⟨h1, h2, h3, h4, h5⟩ := processLoop_buckets skipEmpty process store
    (records.filterMap id) emptyStats 0 0 0
  have hsum : (ingestFile skipEmpty process store records).processedMessages +
      (ingestFile skipEmpty process store records).skippedMessages +
      (ingestFile skipEmpty process store records).failedMessages =
      (records.filterMap id).length := by
    rw [ingestFile]
    simp only [processBatch, updateStats, h2, h3, h4]
    have e1 : emptyStats.processedMessages = 0 := rfl
    have e2 : emptyStats.skippedMessages = 0 := rfl
    have e3 : emptyStats.failedMessages = 0 := rfl
    simp only [e1, e2, e3]
    omega
  refine ⟨hsum, fun hall => ?_⟩
  rw [hsum]
  have htot : (ingestFile skipEmpty process store records).totalMessages = records.length := rfl
  rw [htot]
  exact length_filterMap_all_some id records hall

/-- C5 witness: the amended theorem applied to a one-record file whose
single record parses. -/
theorem ingestion_bucket_partition_witness :
    (ingestFile true (fun _ => Except.ok []) (fun _ => true)
          [some ⟨['m'], ['h'], []⟩]).processedMessages +
        (ingestFile true (fun _ => Except.ok []) (fun _ => true)
          [some ⟨['m'], ['h'], []⟩]).skippedMessages +
        (ingestFile true (fun _ => Except.ok []) (fun _ => true)
          [some ⟨['m'], ['h'], []⟩]).failedMessages =
      (ingestFile true (fun _ => Except.ok []) (fun _ => true)
          [some ⟨['m'], ['h'], []⟩]).totalMessages :=
  (ingestion_bucket_partition true (fun _ => Except.ok []) (fun _ => true)
    [some ⟨['m'], ['h'], []⟩]).2 (by decide)

/-! ## C7: citation extraction -/

theorem extractCitationsAux_eq (response : Str) (docs : List RetrievalResult) :
    ∀ i : Nat,
      extractCitationsAux response i docs =
        ((List.enumFrom i docs).filter (fun p => containsStr response (docRef p.1))).map
          (fun p => mkCitation p.2) := by
  induction docs with
  | nil => intro i; rfl
  | cons r rest ih =>
    intro i
    by_cases h : containsStr response (docRef i) = true
    · rw [extractCitationsAux, if_pos h, List.enumFrom_cons, List.filter_cons]
      simp [h, ih (i + 1)]
    · rw [extractCitationsAux, if_neg h, List.enumFrom_cons, List.filter_cons]
      simp [h, ih (i + 1)]

/-- C7 (confirmed): citation extraction returns exactly the citations of
the retrieved documents whose 1-indexed literal reference
`[Document i]` occurs in the response, one citation per such document
position (in document order) regardless of how often its reference is
repeated, and none for unreferenced documents: the extracted list equals
the filtered-and-mapped enumeration, and its length counts the
referenced positions. -/
theorem extractCitations_one_per_referenced_index (response : Str)
    (docs : List RetrievalResult) :
    extractCitationsFromResponse response docs =
      ((docs.enum.filter (fun p => containsStr response (docRef p.1))).map
        (fun p => mkCitation p.2)) ∧
    (extractCitationsFromResponse response docs).length =
      docs.enum.countP (fun p => containsStr response (docRef p.1)) := by
  have heq := extractCitationsAux_eq response docs 0
  constructor
  · rw [extractCitationsFromResponse, heq]
    rfl
  · rw [extractCitationsFromResponse, heq]
    rw [List.length_map, ← List.countP_eq_length_filter]
    rfl

/-! ## C9: relevance bounds and the MinScore filter -/

theorem termBoostOf_nonneg (doc : Document) (query : Str) : 0 ≤ termBoostOf doc query := by
  rw [termBoostOf]
  apply mul_nonneg
  · exact div_nonneg (Nat.cast_nonneg _) (Nat.cast_nonneg _)
  · norm_num

theorem metadataBoostOf_nonneg (doc : Document) (query : Str) :
    0 ≤ metadataBoostOf doc query := by
  rw [metadataBoostOf]
  split
  · norm_num
  · exact le_refl 0

/-- C9 (confirmed): for any document, `calculateRelevance` is the base
constant 0.7 plus non-negative term and metadata boosts, clamped above at
1.0, so its value lies in [0.7, 1]; consequently, whenever
`MinScore ≤ 0.7` (including the default 0.5) the MinScore filter in
`processResults` discards no candidate: the result list has one entry
per retrieved document. -/
theorem relevance_bounds_minScore_filter (docs : List Document) (query : Str)
    (minScore : ℚ) (hterms : fields (toLowerStr query) ≠ [])
    (hmin : minScore ≤ 7/10) :
    (∀ doc : Document,
      7/10 ≤ calculateRelevance doc query ∧ calculateRelevance doc query ≤ 1) ∧
    (processResults minScore docs query).length = docs.length := by
  have hbounds : ∀ doc : Document,
      7/10 ≤ calculateRelevance doc query ∧ calculateRelevance doc query ≤ 1 := by
    intro doc
    have ht := termBoostOf_nonneg doc query
    have hm := metadataBoostOf_nonneg doc query
    rw [calculateRelevance]
    split
    · constructor <;> norm_num
    · rename_i hclamp
      push_neg at hclamp
      constructor
      · linarith
      · exact hclamp
  refine ⟨hbounds, ?_⟩
  rw [processResults, List.length_mergeSort]
  apply length_filterMap_all_some
  intro doc _
  rw [scoreResult, if_neg (not_lt.mpr (le_trans hmin (hbounds doc).1))]
  rfl

/-- C9 witness: the theorem applied to one concrete document and the
query "hello you" (two terms) with the default MinScore 0.5. -/
theorem relevance_bounds_minScore_filter_witness :
    (∀ doc : Document,
      7/10 ≤ calculateRelevance doc ("hello you".data) ∧
        calculateRelevance doc ("hello you".data) ≤ 1) ∧
    (processResults (1/2) [⟨['d'], "hello world".data, [], [], []⟩]
        ("hello you".data)).length =
      [(⟨['d'], "hello world".data, [], [], []⟩ : Document)].length :=
  relevance_bounds_minScore_filter [⟨['d'], "hello world".data, [], [], []⟩]
    ("hello you".data) (1/2) (by decide) (by norm_num)

/-! ## C10: GetOrCreateConversation -/

/-- C10 (confirmed): for any conversation id that is empty or not present
in the manager's table (including one reaped after the retention period),
and any client, `GetOrCreateConversation` never reports an error and
returns the freshly created conversation: its id is the newly generated
one (distinct from the requested id as long as the generated uuid
differs, which is the hypothesis `hfresh` standing for uuid freshness),
it belongs to the client, it is stored in the table under the new id,
and when a system prompt is configured the conversation is seeded with
it, its estimated tokens counted toward the running total. -/
theorem getOrCreateConversation_always_returns (m : ConversationManager)
    (conversationID clientID genId genMsgId : Str)
    (hmiss : conversationID = [] ∨ getConversation m conversationID = none)
    (hfresh : genId ≠ conversationID) :
    (getOrCreateConversation m conversationID clientID genId genMsgId).1.id = genId ∧
    (getOrCreateConversation m conversationID clientID genId genMsgId).1.id ≠
      conversationID ∧
    (getOrCreateConversation m conversationID clientID genId genMsgId).1.clientID =
      clientID ∧
    getConversation (getOrCreateConversation m conversationID clientID genId genMsgId).2
        genId =
      some (getOrCreateConversation m conversationID clientID genId genMsgId).1 ∧
    (¬ m.config.systemPrompt = [] →
      (getOrCreateConversation m conversationID clientID genId genMsgId).1.messages =
          [⟨genMsgId, Role.system, m.config.systemPrompt,
            estimateTokens m.config.systemPrompt⟩] ∧
      (getOrCreateConversation m conversationID clientID genId genMsgId).1.totalTokens =
        estimateTokens m.config.systemPrompt) ∧
    (m.config.systemPrompt = [] →
      (getOrCreateConversation m conversationID clientID genId genMsgId).1.messages = [] ∧
      (getOrCreateConversation m conversationID clientID genId genMsgId).1.totalTokens =
        0) := by
  have hcreate : getOrCreateConversation m conversationID clientID genId genMsgId =
      createConversationM m clientID genId genMsgId := by
    rcases hmiss with hempty | hnone
    · rw [getOrCreateConversation, if_pos (by simp [hempty])]
    · rw [getOrCreateConversation]
      split
      · rfl
      · rw [hnone]
  rw [hcreate]
  by_cases hsp : m.config.systemPrompt = []
  · have hconv : createConversation m.config clientID genId genMsgId =
        { id := genId, clientID := clientID, messages := [],
          totalTokens := 0, maxContextTokens := m.config.maxContextTokens } := by
      rw [createConversation, if_pos (by simp [hsp])]
    refine ⟨?_, ?_, ?_, ?_, fun hc => absurd hsp hc, fun _ => ?_⟩
    · rw [createConversationM, hconv]
    · rw [createConversationM, hconv]
      exact hfresh
    · rw [createConversationM, hconv]
    · rw [createConversationM, getConversation, hconv]
      simp
    · rw [createConversationM, hconv]
      exact ⟨rfl, rfl⟩
  · have hconv : createConversation m.config clientID genId genMsgId =
        { id := genId, clientID := clientID,
          messages := [⟨genMsgId, Role.system, m.config.systemPrompt,
            estimateTokens m.config.systemPrompt⟩],
          totalTokens := estimateTokens m.config.systemPrompt,
          maxContextTokens := m.config.maxContextTokens } := by
      rw [createConversation, if_neg (by simp [List.isEmpty_iff, hsp])]
    refine ⟨?_, ?_, ?_, ?_, fun _ => ?_, fun hc => absurd hc hsp⟩
    · rw [createConversationM, hconv]
    · rw [createConversationM, hconv]
      exact hfresh
    · rw [createConversationM, hconv]
    · rw [createConversationM, getConversation, hconv]
      simp
    · rw [createConversationM, hconv]
      exact ⟨rfl, rfl⟩

/-- C10 witness: the theorem applied to an empty manager with a
configured system prompt ("hi there!", 9 characters, 2 estimated tokens)
and an unknown requested conversation id. -/
theorem getOrCreateConversation_always_returns_witness :
    (getOrCreateConversation ⟨[], ⟨100, 10, "hi there!".data⟩⟩ ['x'] ['c'] ['g']
        ['n']).1.id = ['g'] ∧
    (getOrCreateConversation ⟨[], ⟨100, 10, "hi there!".data⟩⟩ ['x'] ['c'] ['g']
        ['n']).1.id ≠ ['x'] ∧
    (getOrCreateConversation ⟨[], ⟨100, 10, "hi there!".data⟩⟩ ['x'] ['c'] ['g']
        ['n']).1.clientID = ['c'] ∧
    getConversation
        (getOrCreateConversation ⟨[], ⟨100, 10, "hi there!".data⟩⟩ ['x'] ['c'] ['g']
          ['n']).2 ['g'] =
      some (getOrCreateConversation ⟨[], ⟨100, 10, "hi there!".data⟩⟩ ['x'] ['c'] ['g']
        ['n']).1 ∧
    (¬ (⟨100, 10, "hi there!".data⟩ : ConversationConfig).systemPrompt = [] →
      (getOrCreateConversation ⟨[], ⟨100, 10, "hi there!".data⟩⟩ ['x'] ['c'] ['g']
          ['n']).1.messages =
        [⟨['n'], Role.system, (⟨100, 10, "hi there!".data⟩ : ConversationConfig).systemPrompt,
          estimateTokens (⟨100, 10, "hi there!".data⟩ : ConversationConfig).systemPrompt⟩] ∧
      (getOrCreateConversation ⟨[], ⟨100, 10, "hi there!".data⟩⟩ ['x'] ['c'] ['g']
          ['n']).1.totalTokens =
        estimateTokens (⟨100, 10, "hi there!".data⟩ : ConversationConfig).systemPrompt) ∧
    ((⟨100, 10, "hi there!".data⟩ : ConversationConfig).systemPrompt = [] →
      (getOrCreateConversation ⟨[], ⟨100, 10, "hi there!".data⟩⟩ ['x'] ['c'] ['g']
          ['n']).1.messages = [] ∧
      (getOrCreateConversation ⟨[], ⟨100, 10, "hi there!".data⟩⟩ ['x'] ['c'] ['g']
          ['n']).1.totalTokens = 0) :=
  getOrCreateConversation_always_returns ⟨[], ⟨100, 10, "hi there!".data⟩⟩ ['x'] ['c']
    ['g'] ['n'] (Or.inr (by decide)) (by decide)

/-! ## C8: hub full-queue behaviour -/

theorem find?_id_eq_of_mem_nodup (clients : List HubClient) (c : HubClient)
    (hnodup : (clients.map (·.id)).Nodup) (hc : c ∈ clients) :
    clients.find? (fun x => x.id == c.id) = some c := by
  induction clients with
  | nil => simp at hc
  | cons a rest ih =>
    rw [List.map_cons, List.nodup_cons] at hnodup
    rcases List.mem_cons.mp hc with rfl | hmem
    · simp [List.find?]
    · have hfalse : (a.id == c.id) = false := by
        rw [beq_eq_false_iff_ne]
        intro haid
        exact hnodup.1 (haid ▸ List.mem_map_of_mem (·.id) hmem)
      simp only [List.find?, hfalse, cond_false]
      exact ih hnodup.2 hmem

/-- C8 counterexample: `Hub.SendMessage` to a client whose outbound
queue (capacity 1) already holds 1 pending message does not disconnect
the client: it merely drops the message and returns an error, leaving
the registry — still containing the full client — unchanged; so
delivering a (K+1)th message does not always forcibly disconnect. -/
theorem sendMessage_full_queue_not_disconnected :
    sendMessage 1 [⟨['c'], [⟨['a']⟩]⟩] ['c'] ⟨['x']⟩ = ([⟨['c'], [⟨['a']⟩]⟩], false) ∧
    (⟨['c'], [⟨['a']⟩]⟩ : HubClient) ∈ (sendMessage 1 [⟨['c'], [⟨['a']⟩]⟩] ['c'] ⟨['x']⟩).1 := by
  decide

/-- C8 (amended): in the hub's broadcast step (the only delivery path
that disconnects), every registered client with spare queue capacity
receives the message, and every client whose queue already holds
`capacity` messages is removed from the registry (its queue closed) —
the step never blocks, and dropping one full client does not affect
delivery to the others; by contrast, the direct `SendMessage` path to a
full-queue client drops the message and returns an error while leaving
the registry unchanged (no forced disconnect). -/
theorem hub_full_queue_behaviour (capacity : Nat) (clients : List HubClient)
    (message : WireMessage) (hnodup : (clients.map (·.id)).Nodup) :
    (∀ c ∈ clients, c.send.length < capacity →
      ({ c with send := c.send ++ [message] } : HubClient) ∈
        broadcastStep capacity clients message) ∧
    (∀ c ∈ clients, capacity ≤ c.send.length →
      ∀ c' ∈ broadcastStep capacity clients message, c'.id ≠ c.id) ∧
    (∀ c ∈ clients, capacity ≤ c.send.length →
      sendMessage capacity clients c.id message = (clients, false)) := by
  refine ⟨?_, ?_, ?_⟩
  · intro c hc hlt
    rw [broadcastStep, List.mem_filterMap]
    exact ⟨c, hc, by rw [if_pos hlt]⟩
  · intro c hc hfull c' hc' heq
    rw [broadcastStep, List.mem_filterMap] at hc'
    obtain ⟨a, ha, hfa⟩ := hc'
    by_cases hlt : a.send.length < capacity
    · rw [if_pos hlt] at hfa
      have hfa' := Option.some.inj hfa
      have hid : a.id = c.id := by
        have := congrArg HubClient.id hfa'
        simpa using this.trans heq
      have hac : a = c := List.inj_on_of_nodup_map hnodup ha hc hid
      rw [hac] at hlt
      omega
    · rw [if_neg hlt] at hfa
      exact Option.noConfusion hfa
  · intro c hc hfull
    have hnl : ¬ c.send.length < capacity := not_lt.mpr hfull
    rw [sendMessage, find?_id_eq_of_mem_nodup clients c hnodup hc]
    simp only [hnl, if_false]

/-- C8 witness: the amended theorem applied to a two-client registry of
capacity 1, one client full and one with room. -/
theorem hub_full_queue_behaviour_witness :
    (∀ c ∈ [(⟨['a'], []⟩ : HubClient), ⟨['b'], [⟨['m']⟩]⟩], c.send.length < 1 →
      ({ c with send := c.send ++ [⟨['z']⟩] } : HubClient) ∈
        broadcastStep 1 [⟨['a'], []⟩, ⟨['b'], [⟨['m']⟩]⟩] ⟨['z']⟩) ∧
    (∀ c ∈ [(⟨['a'], []⟩ : HubClient), ⟨['b'], [⟨['m']⟩]⟩], 1 ≤ c.send.length →
      ∀ c' ∈ broadcastStep 1 [⟨['a'], []⟩, ⟨['b'], [⟨['m']⟩]⟩] ⟨['z']⟩, c'.id ≠ c.id) ∧
    (∀ c ∈ [(⟨['a'], []⟩ : HubClient), ⟨['b'], [⟨['m']⟩]⟩], 1 ≤ c.send.length →
      sendMessage 1 [⟨['a'], []⟩, ⟨['b'], [⟨['m']⟩]⟩] c.id ⟨['z']⟩ =
        ([⟨['a'], []⟩, ⟨['b'], [⟨['m']⟩]⟩], false)) :=
  hub_full_queue_behaviour 1 [⟨['a'], []⟩, ⟨['b'], [⟨['m']⟩]⟩] ⟨['z']⟩ (by decide)
